import Mathlib

/-!
Verification development for the Mocha test-adapter core: the source
scanner (`TestDiscovery.parseFileContent`, skip-aware variant), the tag
extractor, and the result reconciler (`TestRunner.updateChildResults`,
`updateTestResults`, `parseStackTrace`, `createTestMessage`).

The TypeScript code is embedded shallowly: regexes are modelled by
executable matchers implementing the backtracking semantics of the
concrete patterns, mutable `TestItem` trees by an arena of nodes with
parent indices and child index lists, and the VS Code
`TestItemCollection.add` replace-on-id-collision semantics by an explicit
`childAdd` operation.
-/

namespace MochaAdapter

/-! ### Character classes (JS `\s`, `\w`, digits) -/

/-- JS whitespace class `\s`, restricted to the ASCII members that can occur
in source lines (space, tab, CR, LF, vertical tab, form feed). -/
def isWsChar (c : Char) : Bool :=
  c = ' ' || c = '\t' || c = '\n' || c = '\r' || c = '\x0b' || c = '\x0c'

/-- JS word class `\w` = `[A-Za-z0-9_]`. -/
def isWordChar (c : Char) : Bool :=
  c.isAlpha || c.isDigit || c = '_'

/-- Length of the maximal leading whitespace run; for a line with a
non-whitespace character this equals `line.search(/\S/)`. -/
def wsRun : List Char → Nat
  | [] => 0
  | c :: cs => if isWsChar c then wsRun cs + 1 else 0

/-- `String.prototype.trim()` on a character list. -/
def jsTrim (cs : List Char) : List Char :=
  ((cs.dropWhile isWsChar).reverse.dropWhile isWsChar).reverse

/-- `content.split('\n')` (literal separator): the segments between
newline characters; the empty string yields one empty segment. -/
def splitLinesAux : List Char → List Char → List String
  | [], acc => [String.mk acc.reverse]
  | c :: rest, acc =>
    if c = '\n' then String.mk acc.reverse :: splitLinesAux rest []
    else splitLinesAux rest (c :: acc)

def splitLines (s : String) : List String :=
  splitLinesAux s.toList []

/-- Leading-sequence test on character lists. -/
def strHasLead : List Char → List Char → Bool
  | [], _ => true
  | _, [] => false
  | p :: ps, c :: cs => p = c && strHasLead ps cs

/-- JS `s.startsWith(pre)`. -/
def strStartsWith (s pre : String) : Bool :=
  strHasLead pre.toList s.toList

/-- JS `Array.prototype.join(sep)`. -/
def joinSep (sep : String) : List String → String
  | [] => ""
  | [x] => x
  | x :: y :: rest => x ++ sep ++ joinSep sep (y :: rest)

/-- A line skipped by the scanner loop: blank after trimming, or a `//`
comment line. -/
def isBlankOrComment (cs : List Char) : Bool :=
  let t := jsTrim cs
  t.isEmpty || (t.head? = some '/' && t.tail.head? = some '/')

/-! ### Declaration-line matching

Executable models of the anchored regexes of `parseFileContent`:

  `/^\s*(describe|context)(\.(skip|only))?\s*\(\s*(?:"([^"]*)"|'([^']*)'|`...`)/`
  `/^\s*it(\.(skip|only))?\s*\(\s*(?:"([^"]*)"|'([^']*)'|`...`)/`
  `/^\s*\}\s*\)/`

Each piece of these patterns is deterministic once the leading `\s*` is
fixed (the characters following a maximal whitespace run are never
whitespace, so the greedy runs never backtrack), except the keyword and
modifier alternations, which are tried in pattern order. -/

/-- Strip a literal character sequence, returning the remainder. -/
def matchLit : List Char → List Char → Option (List Char)
  | [], cs => some cs
  | _, [] => none
  | l :: ls, c :: cs => if c = l then matchLit ls cs else none

inductive Modifier where
  | mskip
  | monly
deriving DecidableEq, Repr

inductive QuoteKind where
  | double
  | single
  | backtick
deriving DecidableEq, Repr

structure DeclMatch where
  modifier : Option Modifier
  quote : QuoteKind
  content : String
deriving DecidableEq, Repr

/-- Match `\s*\(\s*(?:"([^"]*)"|'([^']*)'|`([^`]*)`)` : optional whitespace,
an opening parenthesis, optional whitespace, then a quoted name.  The
quote alternatives are tried in pattern order (double, single, backtick);
the quoted body is the maximal run of characters other than the opening
quote, and the closing quote must be present. -/
def parseParenQuote (cs : List Char) : Option (QuoteKind × String) :=
  match (cs.drop (wsRun cs)) with
  | '(' :: cs2 =>
    let cs3 := cs2.drop (wsRun cs2)
    match cs3 with
    | '"' :: r =>
      let body := r.takeWhile (fun c => !(c = '"'))
      if (r.drop body.length).head? = some '"' then
        some (QuoteKind.double, String.mk body)
      else none
    | '\'' :: r =>
      let body := r.takeWhile (fun c => !(c = '\''))
      if (r.drop body.length).head? = some '\'' then
        some (QuoteKind.single, String.mk body)
      else none
    | c :: r =>
      if c = (Char.ofNat 96) then
        let body := r.takeWhile (fun x => !(x = Char.ofNat 96))
        if (r.drop body.length).head? = some (Char.ofNat 96) then
          some (QuoteKind.backtick, String.mk body)
        else none
      else none
    | [] => none
  | _ => none

/-- Match `(\.(skip|only))?` followed by the paren-and-quote tail.  The
optional group is greedy: `.skip` is attempted first, then `.only`, and
only if neither full continuation succeeds is the group dropped. -/
def parseAfterKeyword (cs : List Char) : Option DeclMatch :=
  match matchLit ['.', 's', 'k', 'i', 'p'] cs with
  | some rest =>
    match parseParenQuote rest with
    | some (q, s) => some ⟨some Modifier.mskip, q, s⟩
    | none => noMod
  | none => noMod
where
  noMod : Option DeclMatch :=
    match matchLit ['.', 'o', 'n', 'l', 'y'] cs with
    | some rest =>
      match parseParenQuote rest with
      | some (q, s) => some ⟨some Modifier.monly, q, s⟩
      | none => bare
    | none => bare
  bare : Option DeclMatch :=
    (parseParenQuote cs).map (fun p => ⟨none, p.1, p.2⟩)

/-- Model of the `describeRegex` match: anchored optional whitespace, then
the `describe`/`context` alternation (in that order), modifier, and quoted
name. -/
def describeParse (line : String) : Option DeclMatch :=
  let body := line.toList.drop (wsRun line.toList)
  match matchLit ['d', 'e', 's', 'c', 'r', 'i', 'b', 'e'] body with
  | some rest =>
    match parseAfterKeyword rest with
    | some m => some m
    | none => fromContext body
  | none => fromContext body
where
  fromContext (body : List Char) : Option DeclMatch :=
    match matchLit ['c', 'o', 'n', 't', 'e', 'x', 't'] body with
    | some rest => parseAfterKeyword rest
    | none => none

/-- Model of the `itRegex` match. -/
def itParse (line : String) : Option DeclMatch :=
  let body := line.toList.drop (wsRun line.toList)
  match matchLit ['i', 't'] body with
  | some rest => parseAfterKeyword rest
  | none => none

/-- Model of `suiteEndRegex = /^\s*\}\s*\)/`. -/
def suiteEndTest (line : String) : Bool :=
  let cs := line.toList
  match cs.drop (wsRun cs) with
  | '}' :: rest => (rest.drop (wsRun rest)).head? = some ')'
  | _ => false

/-- The declared name is computed by
`describeMatch[4] || describeMatch[5] || describeMatch[6]` (and the
shifted analogue for `it`).  Only the matched quote branch's group is
defined, so the chain returns that group's content — except that JS `||`
treats the empty string as falsy: an empty double- or single-quoted
capture falls through past the remaining `undefined` groups and the name
is the JS value `undefined` (for an empty backtick capture the chain
returns the final group's own value, the empty string).  With an
`undefined` name, `this.extractTags(name)` later calls
`undefined.match(...)`: a TypeError that aborts the scanning pass. -/
def nameIsUndef (m : DeclMatch) : Bool :=
  m.content = "" && !(m.quote = QuoteKind.backtick)

/-! ### Tag extraction (`extractTags`)

`text.match(/\[(\w+)\]/g)` and `text.match(/@(\w+)/g)` scan the label for
all non-overlapping occurrences; each captured word is lowercased.  The
scans are modelled by character-level state machines equivalent to the
global regex scan (after a failed attempt the scan resumes one character
further on). -/

def lowerStr (cs : List Char) : String :=
  String.mk (cs.map Char.toLower)

/-- All `[word]` tokens, scanning left to right.  The accumulator holds
the word collected since the most recent unmatched `[`. -/
def bracketScan : List Char → Option (List Char) → List String
  | [], _ => []
  | c :: rest, none =>
    if c = '[' then bracketScan rest (some [])
    else bracketScan rest none
  | c :: rest, some acc =>
    if isWordChar c then bracketScan rest (some (acc ++ [c]))
    else if c = ']' && !acc.isEmpty then lowerStr acc :: bracketScan rest none
    else if c = '[' then bracketScan rest (some [])
    else bracketScan rest none

/-- All `@word` tokens, scanning left to right. -/
def atScan : List Char → Option (List Char) → List String
  | [], none => []
  | [], some acc => if acc.isEmpty then [] else [lowerStr acc]
  | c :: rest, none =>
    if c = '@' then atScan rest (some [])
    else atScan rest none
  | c :: rest, some acc =>
    if isWordChar c then atScan rest (some (acc ++ [c]))
    else
      (if acc.isEmpty then [] else [lowerStr acc]) ++
        (if c = '@' then atScan rest (some []) else atScan rest none)

/-- `extractTags`: bracket tags first, then at-sign tags, in scan order.
Tags are identified by their lowercased name (the registry's get-or-create
step only interns the identical string). -/
def extractTags (text : String) : List String :=
  bracketScan text.toList none ++ atScan text.toList none

/-! ### Test tree arena

`vscode.TestItem` objects are mutable and linked through `parent` and
`children`; the scanner holds live references in `suiteStack`.  The
embedding uses an arena: a list of nodes in creation order, where a node
refers to its parent and children by arena index.  `controller.items`
holds the root File node at index 0. -/

inductive ItemType where
  | file
  | suite
  | test
deriving DecidableEq, Repr

structure Node where
  type : ItemType
  id : String
  label : String
  /-- `testData` line / `range` start line of the declaration. -/
  line : Nat
  tags : List String
  /-- Arena index of the parent; the File root points to itself. -/
  parent : Nat
  /-- Arena indices of the children, in collection order. -/
  children : List Nat
deriving DecidableEq, Repr

instance : Inhabited Node :=
  ⟨⟨ItemType.file, "", "", 0, [], 0, []⟩⟩

def arenaGet (a : List Node) (j : Nat) : Node :=
  (a[j]?).getD default

/-- `TestItemCollection.add`: appends the new child, except that a child
whose id equals the new item's id is replaced in place. -/
def childAdd (a : List Node) (cs : List Nat) (newIdx : Nat) : List Nat :=
  let newId := (arenaGet a newIdx).id
  if cs.any (fun j => (arenaGet a j).id = newId) then
    cs.map (fun j => if (arenaGet a j).id = newId then newIdx else j)
  else cs ++ [newIdx]

/-- Replace the children list of the node at arena index `p`. -/
def setKids (a : List Node) (p : Nat) (kids : List Nat) : List Node :=
  match a[p]? with
  | some n => a.set p { n with children := kids }
  | none => a

/-! ### Scanner state machine (`parseFileContent`, skip-aware variant) -/

structure ScanState where
  arena : List Node
  /-- `suiteStack`, top of stack first; the last element is the File root. -/
  stack : List Nat
  currentIndent : Int
  skippedBlockIndent : Option Nat
deriving Repr

/-- `skippedBlockIndent !== null && indent > skippedBlockIndent`: the line
lies strictly inside an active suppression boundary. -/
def suppressedUnder (b : Option Nat) (indent : Nat) : Bool :=
  match b with
  | some bb => decide (indent > bb)
  | none => false

/-- `if (skippedBlockIndent !== null && indent <= skippedBlockIndent)
skippedBlockIndent = null`: clear the boundary when the line is back at
or before it. -/
def clearBoundary (b : Option Nat) (indent : Nat) : Option Nat :=
  match b with
  | some bb => if indent ≤ bb then none else some bb
  | none => none

/-- The `while (suiteStack.length > 1 && indent <= currentIndent)` pop
loop of the describe branch. -/
def popLoop : List Nat → Int → Nat → List Nat × Int
  | [], cur, _ => ([], cur)
  | [x], cur, _ => ([x], cur)
  | x :: y :: rest, cur, indent =>
    if (indent : Int) ≤ cur then popLoop (y :: rest) (cur - 2) indent
    else (x :: y :: rest, cur)

/-- Create a node, add it to its parent's children, and return the
updated arena together with the new node's index. -/
def createUnder (st : ScanState) (parentIdx : Nat) (n : Node) :
    List Node × Nat :=
  let idx := st.arena.length
  let a1 := st.arena ++ [n]
  let a2 := setKids a1 parentIdx
    (childAdd a1 (arenaGet a1 parentIdx).children idx)
  (a2, idx)

/-- One iteration of the scanning loop on line index `i`.  `none` is a
thrown TypeError: with an `undefined` declared name (an empty
double/single-quoted capture, checked after the skip/suppression
`continue`s, which the source reaches first), `extractTags` throws.  The
mutations the source performs in the throwing iteration before the throw
— the boundary clear, the stack pops, and the created but never attached
`TestItem` — live in local variables or are unreachable objects, so the
observable state at the throw is the state before the line; the model
returns `none` there. -/
def processLine (st : ScanState) (i : Nat) (line : String) :
    Option ScanState :=
  let cs := line.toList
  if isBlankOrComment cs then some st
  else
    match describeParse line with
    | some m =>
      let indent := wsRun cs
      let skipB := clearBoundary st.skippedBlockIndent indent
      if m.modifier = some Modifier.mskip then
        some { st with skippedBlockIndent := some indent }
      else if suppressedUnder skipB indent then
        some { st with skippedBlockIndent := skipB }
      else if nameIsUndef m then none
      else
        let p := popLoop st.stack st.currentIndent indent
        let parentIdx := p.1.headD 0
        let node : Node :=
          { type := ItemType.suite
            id := (arenaGet st.arena parentIdx).id ++ "/" ++ m.content
            label := m.content
            line := i
            tags := extractTags m.content
            parent := parentIdx
            children := [] }
        let c := createUnder { st with stack := p.1, currentIndent := p.2 }
          parentIdx node
        some
          { arena := c.1
            stack := c.2 :: p.1
            currentIndent := indent
            skippedBlockIndent := skipB }
    | none =>
      match itParse line with
      | some m =>
        let indent := wsRun cs
        if suppressedUnder st.skippedBlockIndent indent then some st
        else if m.modifier = some Modifier.mskip then some st
        else if nameIsUndef m then none
        else
          let parentIdx := st.stack.headD 0
          let node : Node :=
            { type := ItemType.test
              id := (arenaGet st.arena parentIdx).id ++ "/" ++ m.content
              label := m.content
              line := i
              tags := (arenaGet st.arena parentIdx).tags ++
                extractTags m.content
              parent := parentIdx
              children := [] }
          let c := createUnder st parentIdx node
          some { st with arena := c.1 }
      | none =>
        if suiteEndTest line && st.stack.length > 1 then
          let indent := wsRun cs
          if (indent : Int) ≤ st.currentIndent && st.stack.length > 1 then
            some
              { st with
                stack := st.stack.tail
                currentIndent := max 0 (st.currentIndent - 2) }
          else some st
        else some st

/-- Iterate the scanning loop from line index `start`.  A TypeError
aborts the loop: the exception propagates out of `parseFileContent` (to
`parseTestFile`'s catch), so the lines after it are never processed and
the tree built so far is what remains. -/
def scanLines (st : ScanState) (start : Nat) : List String → ScanState
  | [] => st
  | l :: rest =>
    match processLine st start l with
    | some st2 => scanLines st2 (start + 1) rest
    | none => st

/-- The fresh state of one `parseFileContent` pass: the File node with
its children cleared, on the bottom of the suite stack. -/
def initState (fileId fileLabel : String) : ScanState :=
  { arena := [{ type := ItemType.file, id := fileId, label := fileLabel,
                line := 0, tags := [], parent := 0, children := [] }]
    stack := [0]
    currentIndent := 0
    skippedBlockIndent := none }

/-- `parseFileContent`: split the text on newlines and run the scanning
loop.  (`children.replace([])` is reflected by starting from a childless
File root; the rebuilt subtree replaces the old one wholesale.) -/
def parseFileContent (fileId fileLabel : String) (content : String) :
    ScanState :=
  scanLines (initState fileId fileLabel) 0 (splitLines content)

/-- Arena indices reachable from index `idx` through `children` links,
with explicit fuel (children always have larger indices than their
parents, so `arena.length` fuel suffices). -/
def reachList (a : List Node) : Nat → Nat → List Nat
  | 0, _ => []
  | fuel + 1, idx =>
    idx :: ((arenaGet a idx).children.map (reachList a fuel)).flatten

/-- Number of Test nodes with source line `j` present in the tree rooted
at the File node. -/
def treeTestsAtLine (st : ScanState) (j : Nat) : Nat :=
  ((reachList st.arena st.arena.length 0).filter
    (fun k => (arenaGet st.arena k).type = ItemType.test &&
      (arenaGet st.arena k).line = j)).length

/-- Number of Test nodes with source line `j` created during the scan
(arena entries, whether or not a later id collision evicted them from
their parent's children collection). -/
def tcount (a : List Node) (j : Nat) : Nat :=
  a.countP (fun n => n.type = ItemType.test && n.line = j)

/-! ### `parseTestFile` (Scanner boundary, error handling)

`parseTestFile` logs, reads the file inside a `try`, and on success runs
`parseFileContent`; every error (the read included) is caught, logged and
swallowed.  The file read is an input here: `Except.error` is a failed
`workspace.fs.readFile`.  The function is total — returning a plain pair
models that no failure escapes the Scanner boundary. -/

def parseTestFile (fileId fileLabel : String) (prior : ScanState)
    (readResult : Except String String) : ScanState × List String :=
  let log0 : List String := ["Parsing test file: " ++ fileId]
  match readResult with
  | Except.ok text =>
    let st := parseFileContent fileId fileLabel text
    (st, log0 ++ ["Parsed " ++ fileId])
  | Except.error e =>
    (prior, log0 ++ ["Error parsing test file " ++ fileId ++ ": " ++ e])

/-! ### Mocha JSON records (`runFileTests`, lines 1104-1144)

A raw reporter entry carries `fullTitle`, the `pending`/`skipped` flags
and an optional `err` object.  `Object.keys(err)` is modelled by listing
which of the known fields are present plus any extra keys. -/

inductive JsVal where
  | jnull
  | jbool (b : Bool)
  | jnum (n : Int)
  | jstr (s : String)
  | jobj (fields : List (String × String))
deriving DecidableEq, Repr

structure ErrObj where
  message : Option String
  stack : Option String
  expected : Option JsVal
  actual : Option JsVal
  extraKeys : List String
deriving DecidableEq, Repr

/-- `Object.keys(err)` for the modelled error object. -/
def errKeys (e : ErrObj) : List String :=
  (if e.message.isSome then ["message"] else []) ++
  (if e.stack.isSome then ["stack"] else []) ++
  (if e.expected.isSome then ["expected"] else []) ++
  (if e.actual.isSome then ["actual"] else []) ++ e.extraKeys

structure MochaTest where
  fullTitle : String
  pending : Bool
  skipped : Bool
  duration : Option Nat
  err : Option ErrObj
deriving DecidableEq, Repr

/-- The per-test record stored into the `testResults` map. -/
structure RawResult where
  passed : Bool
  pending : Bool
  message : Option String
  duration : Option Nat
  stack : Option String
  expected : Option JsVal
  actual : Option JsVal
deriving DecidableEq, Repr

/-- `!test.err || (typeof test.err === 'object' && Object.keys(test.err).length === 0)`:
an absent error payload, or a present (object-valued) one with no keys. -/
def errEmpty (err : Option ErrObj) : Bool :=
  match err with
  | none => true
  | some e => decide ((errKeys e).length = 0)

/-- Lines 1111-1128: build the stored record from a raw reporter entry. -/
def toTestResult (t : MochaTest) : RawResult :=
  let isPending := t.pending || t.skipped
  { passed := !isPending && errEmpty t.err
    pending := isPending
    message := t.err.bind (fun e => e.message)
    duration := t.duration
    stack := t.err.bind (fun e => e.stack)
    expected := t.err.bind (fun e => e.expected)
    actual := t.err.bind (fun e => e.actual) }

/-! ### Stack-trace parsing (`parseStackTrace`)

Per line, the code applies
`/at\s+(?:(.+?)\s+\()?(.+?):(\d+):(\d+)\)?/` — unanchored, so the
leftmost start position wins; at a fixed start the greedy `\s+` is tried
longest-first, the optional label group is tried before its omission, the
lazy `(.+?)` captures grow shortest-first, and `(\d+)` runs are maximal
(shrinking a digit run can never be followed by the required `:`). -/

structure RawFrame where
  label : Option String
  file : String
  /-- Captured 1-based line number, `parseInt` of the digit run. -/
  line : Nat
  col : Nat
deriving DecidableEq, Repr

def digitsToNat (cs : List Char) : Nat :=
  cs.foldl (fun a c => a * 10 + (c.toNat - 48)) 0

/-- Match `:(\d+):(\d+)` at the head of the input (the trailing `\)?`
always succeeds and nothing anchors the end). -/
def colonNums (cs : List Char) : Option (Nat × Nat) :=
  match cs with
  | ':' :: r1 =>
    let d1 := r1.takeWhile Char.isDigit
    if d1.isEmpty then none
    else
      match r1.drop d1.length with
      | ':' :: r2 =>
        let d2 := r2.takeWhile Char.isDigit
        if d2.isEmpty then none
        else some (digitsToNat d1, digitsToNat d2)
      | _ => none
  | _ => none

/-- Lazy `(.+?):(\d+):(\d+)`: the shortest non-empty file capture whose
remainder starts with the colon-digits tail. -/
def fileSplit : List Char → Option (List Char × Nat × Nat)
  | [] => none
  | c :: rest =>
    match colonNums rest with
    | some p => some ([c], p.1, p.2)
    | none => (fileSplit rest).map (fun r => (c :: r.1, r.2))

/-- The label group `(.+?)\s+\(` followed by the file tail: label
captures grow shortest-first; after a label candidate the `\s+` run must
be maximal (the character after a shorter run is whitespace, not `(`). -/
def groupTail : List Char → Option (List Char × (List Char × Nat × Nat))
  | [] => none
  | c :: rest =>
    let r := wsRun rest
    if 1 ≤ r && (rest.drop r).head? = some '(' then
      match fileSplit ((rest.drop r).tail) with
      | some fr => some ([c], fr)
      | none => (groupTail rest).map (fun p => (c :: p.1, p.2))
    else (groupTail rest).map (fun p => (c :: p.1, p.2))

/-- Try the `\s+` run lengths `k, k-1, …, 1` (greedy, longest first); at
each length first attempt the optional label group, then its omission. -/
def tryWsRun (cs : List Char) : Nat → Option RawFrame
  | 0 => none
  | k + 1 =>
    let rest := cs.drop (k + 1)
    match groupTail rest with
    | some p => some ⟨some (String.mk p.1), String.mk p.2.1, p.2.2.1, p.2.2.2⟩
    | none =>
      match fileSplit rest with
      | some fr => some ⟨none, String.mk fr.1, fr.2.1, fr.2.2⟩
      | none => tryWsRun cs k

/-- Continue the match after the literal `at`. -/
def afterAt (cs : List Char) : Option RawFrame :=
  if wsRun cs = 0 then none else tryWsRun cs (wsRun cs)

/-- Leftmost occurrence of the whole pattern: scan start positions left
to right, trying the literal `at` at each. -/
def findAtFrame : List Char → Option RawFrame
  | [] => none
  | c :: rest =>
    if c = 'a' && rest.head? = some 't' then
      match afterAt rest.tail with
      | some f => some f
      | none => findAtFrame rest
    else findAtFrame rest

/-- `line.match(frameRegex)`, first match only. -/
def findFrame (line : String) : Option RawFrame :=
  findAtFrame line.toList

/-! POSIX path helpers (models of node's `path` module). -/

/-- Index of the last `/`, if any. -/
def lastSlash (cs : List Char) : Option Nat :=
  let after := cs.reverse.takeWhile (fun c => !(c = '/'))
  if after.length = cs.length then none else some (cs.length - after.length - 1)

/-- `path.dirname`, POSIX. -/
def pathDirname (p : String) : String :=
  match lastSlash p.toList with
  | none => "."
  | some 0 => "/"
  | some k => String.mk (p.toList.take k)

/-- `path.basename`, POSIX (model: the component after the last `/`). -/
def pathBasename (p : String) : String :=
  String.mk (p.toList.reverse.takeWhile (fun c => !(c = '/'))).reverse

/-- `path.isAbsolute`, POSIX. -/
def pathIsAbsolute (s : String) : Bool :=
  s.toList.head? = some '/'

/-- `path.join(dir, file)` (model: separator join, without node's
normalization of `.`/`..` segments). -/
def pathJoin (dir file : String) : String :=
  dir ++ "/" ++ file

/-- The URI resolution ladder of `parseStackTrace`: a `file://` reference
is parsed as-is, an absolute path is taken as-is, a relative path is
resolved against the directory of the test file when known, and otherwise
the frame is unresolvable (`continue`).  URIs are modelled by the
resolved reference string. -/
def resolveFrameUri (file : String) (testFileUri : Option String) :
    Option String :=
  if strStartsWith file "file://" then some file
  else if pathIsAbsolute file then some file
  else
    match testFileUri with
    | some u => some (pathJoin (pathDirname u) file)
    | none => none

/-- A resolved `TestMessageStackFrame`: uri, 0-based position, label. -/
structure Frame where
  uri : String
  line : Nat
  col : Nat
  label : String
deriving DecidableEq, Repr

/-- The loop body of `parseStackTrace` for a single line: regex match,
1-based → 0-based conversion, uri resolution (a frame that cannot be
resolved is dropped), and `label || path.basename(file)`. -/
def frameOfLine (testFileUri : Option String) (line : String) :
    Option Frame :=
  match findFrame line with
  | none => none
  | some raw =>
    match resolveFrameUri raw.file testFileUri with
    | none => none
    | some u =>
      some { uri := u
             line := raw.line - 1
             col := raw.col - 1
             label :=
               match raw.label with
               | some l => if l = "" then pathBasename raw.file else l
               | none => pathBasename raw.file }

/-- `parseStackTrace`: split the stack on newlines and push the resolved
frame of each matching line in emission order. -/
def parseStackTrace (stack : String) (testFileUri : Option String) :
    List Frame :=
  (splitLines stack).foldl
    (fun acc line =>
      match frameOfLine testFileUri line with
      | some f => acc ++ [f]
      | none => acc) []

/-! ### Failure detail (`createTestMessage`, `formatValue`) -/

/-- JS `a || b` on an optional string (the empty string is falsy). -/
def jsOrStr (a : Option String) (dflt : String) : String :=
  match a with
  | some s => if s = "" then dflt else s
  | none => dflt

/-- Model of `JSON.stringify(value, null, 2)` for the modelled object
shape (field values are carried pre-rendered; the exact layout of the
rendering is not load-bearing for any claim). -/
def jsonStringify (fields : List (String × String)) : String :=
  "\x7b\n" ++
    joinSep ",\n"
      (fields.map (fun p => "  \x22" ++ p.1 ++ "\x22: " ++ p.2)) ++
  "\n\x7d"

/-- `formatValue`; the `undefined` branch is represented by the absence
of the value (`Option.none`) at the call sites, which guard with
`!== undefined`. -/
def formatValue : JsVal → String
  | JsVal.jnull => "null"
  | JsVal.jstr s => s
  | JsVal.jobj fields => jsonStringify fields
  | JsVal.jnum n => toString n
  | JsVal.jbool b => if b then "true" else "false"

structure TestMessage where
  message : String
  stackTrace : Option (List Frame)
  expectedOutput : Option String
  actualOutput : Option String
deriving DecidableEq, Repr

/-- `createTestMessage`: message text (`result.message || 'Test failed'`),
stack frames when a non-empty stack string is present, and rendered
expected/actual when both are present. -/
def createTestMessage (r : RawResult) (itemUri : Option String) :
    TestMessage :=
  let haveBoth := r.expected.isSome && r.actual.isSome
  { message := jsOrStr r.message "Test failed"
    stackTrace :=
      match r.stack with
      | some s => if s = "" then none else some (parseStackTrace s itemUri)
      | none => none
    expectedOutput :=
      if haveBoth then r.expected.map formatValue else none
    actualOutput :=
      if haveBoth then r.actual.map formatValue else none }

/-! ### Result reconciliation (`updateChildResults`, `updateTestResults`)

The traversal works on the discovered tree; here the tree is given as a
rose tree of items (`type`, `label`, `testData` line, children).  A node
is addressed by its child-index path from the File root, standing for the
object identity of the mutated `TestItem`. -/

inductive RItem where
  | node (type : ItemType) (label : String) (line : Nat)
      (children : List RItem)

def RItem.type : RItem → ItemType
  | RItem.node t _ _ _ => t

def RItem.label : RItem → String
  | RItem.node _ l _ _ => l

def RItem.children : RItem → List RItem
  | RItem.node _ _ _ cs => cs

/-- `buildFullTitlePath`: the labels of the non-File ancestors followed
by the item's own label, root-to-leaf, space-joined.  (The source walks
the parent chain upward and `unshift`s every non-File label.) -/
def buildFullTitlePath (ancestorLabels : List String) (label : String) :
    String :=
  joinSep " " (ancestorLabels ++ [label])

/-- JS `s.endsWith(post)`: `post` is a plain string suffix of `s` (no
token-boundary check). -/
def strEndsWith (s post : String) : Bool :=
  post.toList.isSuffixOf s.toList

/-- The matching loop of `updateChildResults`:
`fullTitle === fullTitlePath || fullTitle.endsWith(fullTitlePath)`, first
entry in iteration order. -/
def matchResult (path : String) (results : List (String × RawResult)) :
    Option (String × RawResult) :=
  results.find? (fun p => p.1 = path || strEndsWith p.1 path)

/-- The per-test outcome applied through `run.skipped` / `run.passed` /
`run.failed`. -/
inductive Outcome where
  | skipped
  | passed (duration : Option Nat)
  | failed (message : TestMessage) (duration : Option Nat)
deriving DecidableEq, Repr

/-- Lines 1472-1500: pending beats passed beats failed. -/
def outcomeOf (r : RawResult) (uri : Option String) : Outcome :=
  if r.pending then Outcome.skipped
  else if r.passed then Outcome.passed r.duration
  else Outcome.failed (createTestMessage r uri) r.duration

mutual

/-- `updateChildResults`: a Test node is matched against the record set
and given at most one outcome; File and Suite nodes only recurse.  The
returned list holds the `run.*` outcome events, keyed by the node's
child-index path. -/
def updateChildResults (uri : Option String)
    (results : List (String × RawResult)) (anc : List String)
    (pos : List Nat) : RItem → List (List Nat × Outcome)
  | RItem.node t label _ children =>
    if t = ItemType.test then
      match matchResult (buildFullTitlePath anc label) results with
      | some p => [(pos, outcomeOf p.2 uri)]
      | none => []
    else
      updateChildList uri results
        (if t = ItemType.file then anc else anc ++ [label]) pos 0 children

def updateChildList (uri : Option String)
    (results : List (String × RawResult)) (anc : List String)
    (pos : List Nat) (k : Nat) : List RItem → List (List Nat × Outcome)
  | [] => []
  | c :: rest =>
    updateChildResults uri results anc (pos ++ [k]) c ++
      updateChildList uri results anc pos (k + 1) rest

end

/-- `updateTestResults`: run the traversal, then clear the file's
failure diagnostics iff every record of the result set is passed or
pending (`Array.from(results.values()).every(r => r.passed || r.pending)`)
and the File item has a uri.  Returns the outcome events and whether
`clearFileDignostics` was invoked. -/
def updateTestResults (fileItem : RItem) (uri : Option String)
    (results : List (String × RawResult)) :
    List (List Nat × Outcome) × Bool :=
  let events := updateChildResults uri results [] [] fileItem
  let allPassed := results.all (fun p => p.2.passed || p.2.pending)
  (events, allPassed && uri.isSome)

/-! ### Projected suppression-state machine

`skippedBlockIndent` evolves independently of the suite stack and the
arena: only describe-lines (and nothing else) update it.  The projection
below lets the per-line creation condition of the scanner be stated
without mentioning the full state. -/

/-- How one line transforms the suppression boundary. -/
def skipStep (b : Option Nat) (line : String) : Option Nat :=
  let cs := line.toList
  if isBlankOrComment cs then b
  else
    match describeParse line with
    | some m =>
      let indent := wsRun cs
      if m.modifier = some Modifier.mskip then some indent
      else clearBoundary b indent
    | none => b

def skipFold (b : Option Nat) (ls : List String) : Option Nat :=
  ls.foldl skipStep b

/-- Does processing one line, under suppression boundary `b`, create a
Test node?  (It must be a non-blank, non-comment line that is not a
describe-line, matches the it-pattern, is not inside the boundary and is
not itself `.skip`-modified.) -/
def stepCreatesTest (b : Option Nat) (line : String) : Bool :=
  let cs := line.toList
  !(isBlankOrComment cs) && (describeParse line).isNone &&
    (match itParse line with
     | some m =>
       !(suppressedUnder b (wsRun cs)) &&
         !(m.modifier = some Modifier.mskip) && !(nameIsUndef m)
     | none => false)

/-- Processing one line, under suppression boundary `b`, throws the
TypeError of an `undefined` declared name (and aborts the pass). -/
def lineThrows (b : Option Nat) (line : String) : Bool :=
  let cs := line.toList
  !(isBlankOrComment cs) &&
    (match describeParse line with
     | some m =>
       !(m.modifier = some Modifier.mskip) &&
         !(suppressedUnder (clearBoundary b (wsRun cs)) (wsRun cs)) &&
         nameIsUndef m
     | none =>
       match itParse line with
       | some m =>
         !(suppressedUnder b (wsRun cs)) &&
           !(m.modifier = some Modifier.mskip) && nameIsUndef m
       | none => false)

/-- No line at an index strictly below `k` throws, scanning `ls` from
boundary `b`. -/
def noThrowUpTo (b : Option Nat) : List String → Nat → Bool
  | _, 0 => true
  | [], _ + 1 => true
  | l :: rest, k + 1 =>
    !(lineThrows b l) && noThrowUpTo (skipStep b l) rest k

/-- Line `k` of block `ls`, scanned with initial boundary `b`, creates
(and attaches) a Test node: the line itself qualifies and no earlier
line of the block aborted the scan. -/
def createsInBlock (b : Option Nat) (ls : List String) (k : Nat) : Bool :=
  match ls[k]? with
  | some line =>
    noThrowUpTo b ls k && stepCreatesTest (skipFold b (ls.take k)) line
  | none => false

/-- Line `i` of the file produces a Test creation during the scan. -/
def testLineCreates (lines : List String) (i : Nat) : Bool :=
  createsInBlock none lines i

/-- Fuel-indexed ancestor walk: `j` reaches the File root (index 0) by
following `parent` links within `fuel` steps. -/
def reaches (a : List Node) : Nat → Nat → Bool
  | 0, _ => false
  | fuel + 1, j => j == 0 || reaches a fuel (arenaGet a j).parent

/-! ### Concrete sample inputs used by witnesses and counterexamples -/

/-- Two sibling test declarations with the same label: their derived ids
collide. -/
def dupContent : String := "it(\"a\",fn)\nit(\"a\",fn)"

/-- An empty-named test declaration followed by a normal one: the first
line's declared name is the JS value `undefined`, so the scan aborts on
it and the second line is never processed. -/
def abortContent : String := "it(\"\",fn)\nit(\"b\",fn)"

/-- A tagged outer suite with an untagged nested suite and test. -/
def c5Content : String :=
  "describe(\"o [a]\", function() \x7b\n  describe(\"i\", function() \x7b\n    it(\"t\", fn)\n  \x7d)\n\x7d)"

/-- A suite whose tag the nested test inherits. -/
def c5bContent : String :=
  "describe(\"s [a]\", function() \x7b\n  it(\"t\", fn)\n\x7d)"

/-- The spec's running example: a suite, a test, and a skipped suite with
a nested test. -/
def specContent : String :=
  "describe(\"A\", () => \x7b\n  it(\"b\", fn);\n  describe.skip(\"C\", () => \x7b\n    it(\"d\", fn);\n  \x7d);\n\x7d);"

/-- A pending record that also carries a non-empty error payload. -/
def pendingErrTest : MochaTest :=
  { fullTitle := "A b", pending := true, skipped := false,
    duration := some 3,
    err := some { message := some "boom", stack := some "at f (a.js:1:2)",
                  expected := none, actual := none, extraKeys := [] } }

/-- A non-pending record with a non-empty error payload. -/
def failedTest : MochaTest :=
  { fullTitle := "A b", pending := false, skipped := false,
    duration := some 7,
    err := some { message := some "boom", stack := none,
                  expected := some (JsVal.jnum 1),
                  actual := some (JsVal.jnum 2), extraKeys := [] } }

/-- A non-pending record with no error payload. -/
def passedTest : MochaTest :=
  { fullTitle := "a", pending := false, skipped := false,
    duration := some 1, err := none }

/-- File → Test "a" tree for the reconciler. -/
def c6Tree : RItem :=
  RItem.node ItemType.file "f.ts" 0 [RItem.node ItemType.test "a" 0 []]

/-- A result set in which every node-assigned outcome is passed but an
unmatched record is failed. -/
def c6Results : List (String × RawResult) :=
  [("a", toTestResult passedTest), ("zzz", toTestResult failedTest)]

/-- A successfully matched record: the only record in the set, matching
the "a" node exactly. -/
def c6GoodResults : List (String × RawResult) :=
  [("a", toTestResult passedTest)]

/-- A node with its children list cleared: the creation-time fields, used
to state that child additions touch only the `children` collection. -/
def nodeCore (n : Node) : Node :=
  { n with children := [] }

/-- The scanning-pass invariant: the arena is rooted at the File node
(index 0, its own parent), the open-node stack is never empty and keeps
the File node at the bottom, stack entries are live arena indices, every
non-root node's parent was created before it, and every Test node's tag
list contains all of its parent's tags. -/
structure WF (st : ScanState) : Prop where
  arena_pos : 0 < st.arena.length
  stack_ne : st.stack ≠ []
  stack_last : st.stack.getLast? = some 0
  stack_lt : ∀ j ∈ st.stack, j < st.arena.length
  root_type : (arenaGet st.arena 0).type = ItemType.file
  parent0 : (arenaGet st.arena 0).parent = 0
  parent_lt : ∀ j, 0 < j → (arenaGet st.arena j).parent < j
  test_tags : ∀ j, (arenaGet st.arena j).type = ItemType.test →
    ∀ x ∈ (arenaGet st.arena (arenaGet st.arena j).parent).tags,
      x ∈ (arenaGet st.arena j).tags

/-! ## Theorems -/

/-- `List.find?` returns the first element satisfying the predicate. -/
theorem find?_first {α : Type} (p : α → Bool) :
    ∀ (l : List α) (a : α), l.find? p = some a →
      p a = true ∧ ∃ pre post, l = pre ++ a :: post ∧ ∀ x ∈ pre, p x = false := by
  intro l
  induction l with
  | nil => intro a h; simp [List.find?] at h
  | cons x rest ih =>
    intro a h
    cases hx : p x with
    | true =>
      rw [List.find?_cons, hx] at h
      cases h
      exact ⟨hx, [], rest, rfl, by intro y hy; simp at hy⟩
    | false =>
      rw [List.find?_cons, hx] at h
      obtain ⟨hpa, pre, post, hl, hpre⟩ := ih a h
      refine ⟨hpa, x :: pre, post, by simp [hl], ?_⟩
      intro y hy
      rcases List.mem_cons.mp hy with rfl | hy2
      · exact hx
      · exact hpre y hy2

/-- C2: a record is matched to a Test node iff its fullTitle equals the
node's full-title path or has the path as a plain string suffix; the
first record in iteration order wins; a test node receives at most one
outcome and none without a match; and a record titled "X A b" matches a
node whose path is "A b". -/
theorem reconciler_matching :
    (∀ (path : String) (results : List (String × RawResult))
        (r : String × RawResult), matchResult path results = some r →
        (r.1 = path ∨ strEndsWith r.1 path = true) ∧
        ∃ pre post, results = pre ++ r :: post ∧
          ∀ q ∈ pre, ¬(q.1 = path ∨ strEndsWith q.1 path = true)) ∧
    (∀ (path : String) (results : List (String × RawResult)),
        matchResult path results = none ↔
          ∀ q ∈ results, ¬(q.1 = path ∨ strEndsWith q.1 path = true)) ∧
    (∀ (uri : Option String) (results : List (String × RawResult))
        (anc : List String) (pos : List Nat) (label : String) (line : Nat)
        (children : List RItem),
        updateChildResults uri results anc pos
            (RItem.node ItemType.test label line children) =
          match matchResult (buildFullTitlePath anc label) results with
          | some p => [(pos, outcomeOf p.2 uri)]
          | none => []) ∧
    (∀ r : RawResult,
        matchResult "A b" [("X A b", r)] = some ("X A b", r)) := by
  refine ⟨?_, ?_, ?_, ?_⟩
  · intro path results r h
    obtain ⟨hpr, pre, post, hl, hpre⟩ :=
      find?_first (fun (p : String × RawResult) => p.1 = path || strEndsWith p.1 path) results r h
    refine ⟨?_, pre, post, hl, ?_⟩
    · rcases Bool.or_eq_true_iff.mp hpr with h1 | h2
      · exact Or.inl (by simpa using h1)
      · exact Or.inr h2
    · intro q hq hcon
      have := hpre q hq
      rcases hcon with h1 | h2
      · simp [h1] at this
      · simp [h2] at this
  · intro path results
    rw [matchResult, List.find?_eq_none]
    constructor
    · intro h q hq hcon
      have := h q hq
      rcases hcon with h1 | h2
      · simp [h1] at this
      · simp [h2] at this
    · intro h q hq
      have := h q hq
      simp only [Bool.or_eq_true, decide_eq_true_eq]
      intro hcon
      rcases hcon with h1 | h2
      · exact this (Or.inl h1)
      · exact this (Or.inr h2)
  · intro uri results anc pos label line children
    rw [updateChildResults]
    simp
  · intro r
    have hs : strEndsWith "X A b" "A b" = true := by decide
    simp [matchResult, List.find?, hs]

/-- C2 witness: the suffix rule at the spec's concrete example. -/
theorem reconciler_matching_witness :
    matchResult "A b" [("X A b", toTestResult passedTest)] =
        some ("X A b", toTestResult passedTest) ∧
    (("X A b" : String) = "A b" ∨ strEndsWith "X A b" "A b" = true) := by
  have h := reconciler_matching.2.2.2 (toTestResult passedTest)
  exact ⟨h, (reconciler_matching.1 "A b" _ _ h).1⟩

/-- C3: a pending record always yields a skipped outcome, both at the
reconciliation step (`result.pending` is checked first) and through the
record-construction pipeline (`pending || skipped`), regardless of any
error payload. -/
theorem pending_record_yields_skipped :
    (∀ (r : RawResult) (uri : Option String), r.pending = true →
        outcomeOf r uri = Outcome.skipped) ∧
    (∀ (t : MochaTest) (uri : Option String),
        (t.pending || t.skipped) = true →
        outcomeOf (toTestResult t) uri = Outcome.skipped) := by
  constructor
  · intro r uri h
    simp [outcomeOf, h]
  · intro t uri h
    simp [outcomeOf, toTestResult, h]

/-- C3 witness: a pending record carrying a non-empty error payload is
still reconciled as skipped. -/
theorem pending_record_yields_skipped_witness :
    (pendingErrTest.pending || pendingErrTest.skipped) = true ∧
    errEmpty pendingErrTest.err = false ∧
    outcomeOf (toTestResult pendingErrTest) (some "/w/f.ts") =
      Outcome.skipped :=
  ⟨by decide, by decide,
    pending_record_yields_skipped.2 pendingErrTest (some "/w/f.ts")
      (by decide)⟩

/-- C4: a non-pending record with an absent or empty error payload yields
passed (with the record's duration); a non-pending record with a
non-empty error payload yields failed with the constructed failure
detail. -/
theorem nonpending_record_outcome :
    ∀ (t : MochaTest) (uri : Option String),
      (t.pending || t.skipped) = false →
      (errEmpty t.err = true →
          outcomeOf (toTestResult t) uri = Outcome.passed t.duration) ∧
      (errEmpty t.err = false →
          outcomeOf (toTestResult t) uri =
            Outcome.failed (createTestMessage (toTestResult t) uri)
              t.duration) := by
  intro t uri h
  constructor
  · intro he
    simp [outcomeOf, toTestResult, h, he]
  · intro he
    simp [outcomeOf, toTestResult, h, he]

/-- C4 witness: a concrete failed record and a concrete passed record. -/
theorem nonpending_record_outcome_witness :
    (failedTest.pending || failedTest.skipped) = false ∧
    errEmpty failedTest.err = false ∧
    outcomeOf (toTestResult failedTest) none =
      Outcome.failed (createTestMessage (toTestResult failedTest) none)
        failedTest.duration ∧
    outcomeOf (toTestResult passedTest) none =
      Outcome.passed passedTest.duration :=
  ⟨by decide, by decide,
    (nonpending_record_outcome failedTest none (by decide)).2 (by decide),
    (nonpending_record_outcome passedTest none (by decide)).1 (by decide)⟩

mutual

/-- Every outcome the traversal assigns is the outcome of some record of
the result set. -/
theorem event_from_record (uri : Option String)
    (results : List (String × RawResult)) (anc : List String)
    (pos : List Nat) (item : RItem) :
    ∀ e ∈ updateChildResults uri results anc pos item,
      ∃ r ∈ results, e.2 = outcomeOf r.2 uri := by
  cases item with
  | node t label line children =>
    intro e he
    rw [updateChildResults] at he
    by_cases ht : t = ItemType.test
    · simp only [ht, if_pos rfl] at he
      cases hm : matchResult (buildFullTitlePath anc label) results with
      | none => rw [hm] at he; simp at he
      | some p =>
        rw [hm] at he
        simp at he
        have hmem : p ∈ results := List.mem_of_find?_eq_some hm
        exact ⟨p, hmem, by rw [he]⟩
    · rw [if_neg ht] at he
      exact event_from_record_list uri results _ pos 0 children e he

theorem event_from_record_list (uri : Option String)
    (results : List (String × RawResult)) (anc : List String)
    (pos : List Nat) (k : Nat) (cs : List RItem) :
    ∀ e ∈ updateChildList uri results anc pos k cs,
      ∃ r ∈ results, e.2 = outcomeOf r.2 uri := by
  cases cs with
  | nil => intro e he; rw [updateChildList] at he; simp at he
  | cons c rest =>
    intro e he
    rw [updateChildList] at he
    rcases List.mem_append.mp he with h1 | h2
    · exact event_from_record uri results anc (pos ++ [k]) c e h1
    · exact event_from_record_list uri results anc pos (k + 1) rest e h2

end

/-- C6 counterexample: every node-assigned outcome is passed, yet the
failure annotations are not cleared, because an unmatched failed record
remains in the result set.  (Refutes the claim's node-level condition.) -/
theorem diagnostics_not_cleared_cex :
    (∀ e ∈ (updateTestResults c6Tree (some "/w/f.ts") c6Results).1,
        e.2 = Outcome.passed (some 1)) ∧
    (updateTestResults c6Tree (some "/w/f.ts") c6Results).2 = false := by
  constructor
  · intro e he
    have : (updateTestResults c6Tree (some "/w/f.ts") c6Results).1 =
        [([0], Outcome.passed (some 1))] := by decide
    rw [this] at he
    simp at he
    rw [he]
  · decide

/-- C6 amended: the stale-failure retraction is keyed on the record set,
not on the node-assigned outcomes — diagnostics are cleared iff every
record in the set is passed or pending (and the File has a uri); when
that holds, every assigned outcome is indeed passed or skipped. -/
theorem diagnostics_cleared_iff_records_pass :
    (∀ (fileItem : RItem) (uri : Option String)
        (results : List (String × RawResult)),
        (updateTestResults fileItem uri results).2 =
          (results.all (fun p => p.2.passed || p.2.pending) && uri.isSome)) ∧
    (∀ (fileItem : RItem) (uri : Option String)
        (results : List (String × RawResult)),
        results.all (fun p => p.2.passed || p.2.pending) = true →
        ∀ e ∈ (updateTestResults fileItem uri results).1,
          e.2 = Outcome.skipped ∨ ∃ d, e.2 = Outcome.passed d) := by
  constructor
  · intro fileItem uri results
    rfl
  · intro fileItem uri results hall e he
    obtain ⟨r, hr, he2⟩ := event_from_record uri results [] [] fileItem e he
    have hok : (r.2.passed || r.2.pending) = true := List.all_eq_true.mp hall r hr
    rw [he2, outcomeOf]
    by_cases hp : r.2.pending
    · simp [hp]
    · have : r.2.passed = true := by
        rcases Bool.or_eq_true_iff.mp hok with h | h
        · exact h
        · exact absurd h hp
      simp [hp, this]

/-- C6 amended witness: an all-passing record set clears the diagnostics
and yields only passed outcomes. -/
theorem diagnostics_cleared_iff_records_pass_witness :
    (updateTestResults c6Tree (some "/w/f.ts") c6GoodResults).2 =
        (c6GoodResults.all (fun p => p.2.passed || p.2.pending) &&
          (some "/w/f.ts").isSome) ∧
    c6GoodResults.all (fun p => p.2.passed || p.2.pending) = true ∧
    (∀ e ∈ (updateTestResults c6Tree (some "/w/f.ts") c6GoodResults).1,
        e.2 = Outcome.skipped ∨ ∃ d, e.2 = Outcome.passed d) :=
  ⟨diagnostics_cleared_iff_records_pass.1 c6Tree (some "/w/f.ts") c6GoodResults,
    by decide,
    diagnostics_cleared_iff_records_pass.2 c6Tree (some "/w/f.ts")
      c6GoodResults (by decide)⟩

/-- C8 counterexample: when a file that was previously scanned
successfully fails to read, the catch block logs and returns without
touching the File node, so its child set is the old (non-empty) one, not
an empty set. -/
theorem read_failure_keeps_old_children_cex :
    (arenaGet
        (parseTestFile "f" "f.ts"
          (parseFileContent "f" "f.ts" "it(\"a\",fn)")
          (Except.error "EACCES")).1.arena 0).children = [1] ∧
    (parseTestFile "f" "f.ts"
        (parseFileContent "f" "f.ts" "it(\"a\",fn)")
        (Except.error "EACCES")).2 =
      ["Parsing test file: f",
        "Error parsing test file f: EACCES"] := by
  constructor
  · decide
  · rfl

/-- C8 amended: a read failure is logged and swallowed (the total
function returns its pair normally — nothing escapes the Scanner
boundary), the File node is returned exactly as it was, and in
particular a fresh (never-populated) File node ends with an empty child
set. -/
theorem read_failure_logged_children_untouched :
    ∀ (fileId fileLabel : String) (prior : ScanState) (e : String),
      parseTestFile fileId fileLabel prior (Except.error e) =
        (prior,
          ["Parsing test file: " ++ fileId,
            "Error parsing test file " ++ fileId ++ ": " ++ e]) ∧
      (arenaGet
          (parseTestFile fileId fileLabel (initState fileId fileLabel)
            (Except.error e)).1.arena 0).children = [] := by
  intro fileId fileLabel prior e
  exact ⟨rfl, rfl⟩

/-- Pushing matched frames in a fold is the same as filtering-mapping the
lines: frames stay in emission order and dropped lines drop only
themselves. -/
theorem foldl_push_eq_filterMap (f : String → Option Frame) :
    ∀ (ls : List String) (acc : List Frame),
      ls.foldl
        (fun acc line =>
          match f line with
          | some fr => acc ++ [fr]
          | none => acc) acc = acc ++ ls.filterMap f := by
  intro ls
  induction ls with
  | nil => intro acc; simp
  | cons l rest ih =>
    intro acc
    cases h : f l with
    | none => simp [List.foldl_cons, h, ih, List.filterMap_cons]
    | some fr => simp [List.foldl_cons, h, ih, List.filterMap_cons]

/-- C9: stack-frame construction splits the stack on newlines, keeps the
resolved frames of matching lines in emission order (unresolvable frames
drop only themselves), converts the captured 1-based numbers to 0-based
positions, resolves a non-absolute non-`file://` reference against the
directory of the test file, and drops a relative frame entirely when no
test-file uri is available. -/
theorem stack_frames_resolved :
    (∀ (stack : String) (uri : Option String),
        parseStackTrace stack uri =
          (splitLines stack).filterMap (frameOfLine uri)) ∧
    (∀ (uri : Option String) (line : String) (raw : RawFrame),
        findFrame line = some raw →
        ∀ f, frameOfLine uri line = some f →
          f.line = raw.line - 1 ∧ f.col = raw.col - 1) ∧
    (∀ (u line : String) (raw : RawFrame),
        findFrame line = some raw →
        strStartsWith raw.file "file://" = false →
        pathIsAbsolute raw.file = false →
        ∃ f, frameOfLine (some u) line = some f ∧
          f.uri = pathJoin (pathDirname u) raw.file ∧
          f.line = raw.line - 1 ∧ f.col = raw.col - 1) ∧
    (∀ (line : String) (raw : RawFrame),
        findFrame line = some raw →
        strStartsWith raw.file "file://" = false →
        pathIsAbsolute raw.file = false →
        frameOfLine none line = none) := by
  refine ⟨?_, ?_, ?_, ?_⟩
  · intro stack uri
    rw [parseStackTrace]
    rw [foldl_push_eq_filterMap (frameOfLine uri) (splitLines stack) []]
    simp
  · intro uri line raw hraw f hf
    cases hres : resolveFrameUri raw.file uri with
    | none => simp [frameOfLine, hraw, hres] at hf
    | some u =>
      simp [frameOfLine, hraw, hres] at hf
      rw [← hf]
      exact ⟨rfl, rfl⟩
  · intro u line raw hraw h1 h2
    have hres : resolveFrameUri raw.file (some u) =
        some (pathJoin (pathDirname u) raw.file) := by
      rw [resolveFrameUri, h1]
      simp [h2]
    refine ⟨{ uri := pathJoin (pathDirname u) raw.file,
              line := raw.line - 1, col := raw.col - 1,
              label :=
                match raw.label with
                | some l => if l = "" then pathBasename raw.file else l
                | none => pathBasename raw.file }, ?_, rfl, rfl, rfl⟩
    simp [frameOfLine, hraw, hres]
  · intro line raw hraw h1 h2
    have hres : resolveFrameUri raw.file none = none := by
      rw [resolveFrameUri, h1]
      simp [h2]
    simp [frameOfLine, hraw, hres]

/-- C9 witness: a three-frame stack with one relative frame, resolved
against the test file's directory, and the same stack with no test-file
uri, where the relative frame is dropped and the absolute one kept. -/
theorem stack_frames_resolved_witness :
    parseStackTrace "Error: x\n    at f (a.js:3:7)\n    at g (/b/c.js:5:1)"
        (some "/w/test/t.js") =
      (splitLines
          "Error: x\n    at f (a.js:3:7)\n    at g (/b/c.js:5:1)").filterMap
        (frameOfLine (some "/w/test/t.js")) ∧
    (∃ f, frameOfLine (some "/w/test/t.js") "    at f (a.js:3:7)" = some f ∧
        f.uri = pathJoin (pathDirname "/w/test/t.js") "a.js" ∧
        f.line = 3 - 1 ∧ f.col = 7 - 1) ∧
    frameOfLine none "    at f (a.js:3:7)" = none :=
  ⟨stack_frames_resolved.1 _ (some "/w/test/t.js"),
    stack_frames_resolved.2.2.1 "/w/test/t.js" "    at f (a.js:3:7)"
      ⟨some "f", "a.js", 3, 7⟩ (by decide) (by decide) (by decide),
    stack_frames_resolved.2.2.2 "    at f (a.js:3:7)"
      ⟨some "f", "a.js", 3, 7⟩ (by decide) (by decide) (by decide)⟩

/-- C7: id uniqueness is not enforced — when a new child's derived id
(`parentId + "/" + label`) equals an existing sibling's id, the addition
replaces that sibling in place: the collection keeps its size, afterwards
every child carrying the colliding id is the new node, and no element
outside the old collection (other than the new node) appears.  No error
is raised (`childAdd` is total).  Concretely, scanning two sibling
`it("a")` declarations creates two Test nodes with the same id and leaves
only the later one in the File's children collection. -/
theorem duplicate_id_overwrites :
    (∀ (a : List Node) (cs : List Nat) (newIdx j : Nat),
        j ∈ cs → (arenaGet a j).id = (arenaGet a newIdx).id →
        (childAdd a cs newIdx).length = cs.length ∧
        newIdx ∈ childAdd a cs newIdx ∧
        (∀ k ∈ childAdd a cs newIdx,
          (arenaGet a k).id = (arenaGet a newIdx).id → k = newIdx) ∧
        (∀ k ∈ childAdd a cs newIdx, k = newIdx ∨ k ∈ cs)) ∧
    ((arenaGet (parseFileContent "f" "f.ts" dupContent).arena 0).children =
        [2] ∧
      (parseFileContent "f" "f.ts" dupContent).arena.length = 3 ∧
      (arenaGet (parseFileContent "f" "f.ts" dupContent).arena 1).id =
        (arenaGet (parseFileContent "f" "f.ts" dupContent).arena 2).id ∧
      (arenaGet (parseFileContent "f" "f.ts" dupContent).arena 1).type =
        ItemType.test ∧
      (arenaGet (parseFileContent "f" "f.ts" dupContent).arena 2).type =
        ItemType.test) := by
  constructor
  · intro a cs newIdx j hj hid
    have hany : cs.any (fun k => (arenaGet a k).id = (arenaGet a newIdx).id)
        = true := by
      rw [List.any_eq_true]
      exact ⟨j, hj, by simp [hid]⟩
    rw [childAdd]
    simp only [hany, if_pos]
    refine ⟨List.length_map _ _, ?_, ?_, ?_⟩
    · rw [List.mem_map]
      exact ⟨j, hj, by simp [hid]⟩
    · intro k hk hkid
      obtain ⟨j2, hj2, hj2eq⟩ := List.mem_map.mp hk
      by_cases h : (arenaGet a j2).id = (arenaGet a newIdx).id
      · rw [if_pos (by simp [h])] at hj2eq
        exact hj2eq.symm
      · rw [if_neg (by simp [h])] at hj2eq
        rw [← hj2eq] at hkid
        exact absurd hkid h
    · intro k hk
      obtain ⟨j2, hj2, hj2eq⟩ := List.mem_map.mp hk
      by_cases h : (arenaGet a j2).id = (arenaGet a newIdx).id
      · rw [if_pos (by simp [h])] at hj2eq
        exact Or.inl hj2eq.symm
      · rw [if_neg (by simp [h])] at hj2eq
        exact Or.inr (hj2eq ▸ hj2)
  · exact ⟨by decide, by decide, by decide, by decide, by decide⟩

/-- C7 witness: the overwrite lemma applied to the children collection
produced by the duplicate-label scan. -/
theorem duplicate_id_overwrites_witness :
    childAdd (parseFileContent "f" "f.ts" dupContent).arena [1] 2 = [2] ∧
    2 ∈ childAdd (parseFileContent "f" "f.ts" dupContent).arena [1] 2 :=
  ⟨by decide,
    (duplicate_id_overwrites.1
      (parseFileContent "f" "f.ts" dupContent).arena [1] 2 1
      (by decide) (by decide)).2.1⟩

/-- `countP` ignores a `set` that does not change the predicate's value. -/
theorem countP_set_eq (pred : Node → Bool) :
    ∀ (l : List Node) (p : Nat) (x : Node),
      (∀ y, l[p]? = some y → pred x = pred y) →
      (l.set p x).countP pred = l.countP pred := by
  intro l
  induction l with
  | nil => intro p x _; rfl
  | cons a rest ih =>
    intro p x h
    cases p with
    | zero =>
      simp only [List.set]
      rw [List.countP_cons, List.countP_cons, h a (by simp)]
    | succ q =>
      simp only [List.set]
      rw [List.countP_cons, List.countP_cons,
        ih q x (fun y hy => h y (by simpa using hy))]

/-- Replacing a node's children list leaves the Test-per-line count
unchanged. -/
theorem tcount_setKids (a : List Node) (p : Nat) (kids : List Nat)
    (j : Nat) : tcount (setKids a p kids) j = tcount a j := by
  unfold setKids
  cases hp : a[p]? with
  | none => rfl
  | some n =>
    unfold tcount
    exact countP_set_eq _ a p _ (fun y hy => by
      rw [hp] at hy
      cases hy
      rfl)

/-- Appending one node adds its own contribution to the count. -/
theorem tcount_append (a : List Node) (n : Node) (j : Nat) :
    tcount (a ++ [n]) j =
      tcount a j +
        (if n.type = ItemType.test ∧ n.line = j then 1 else 0) := by
  unfold tcount
  rw [List.countP_append]
  congr 1
  rw [List.countP_cons]
  by_cases h1 : n.type = ItemType.test <;> by_cases h2 : n.line = j <;>
    simp [h1, h2]

/-- The suppression boundary of the full scanner state evolves exactly as
the projected machine `skipStep` prescribes, on every non-throwing
line. -/
theorem processLine_skipped (st : ScanState) (i : Nat) (line : String) :
    ∀ st2, processLine st i line = some st2 →
      st2.skippedBlockIndent = skipStep st.skippedBlockIndent line := by
  intro st2 hp
  unfold processLine at hp
  unfold skipStep
  by_cases hb : isBlankOrComment line.data
  · simp [hb] at hp ⊢
    rw [← hp]
  · cases hd : describeParse line with
    | some m =>
      by_cases hm : m.modifier = some Modifier.mskip
      · simp [hb, hd, hm] at hp ⊢
        rw [← hp]
      · by_cases hs :
          suppressedUnder
            (clearBoundary st.skippedBlockIndent (wsRun line.data))
            (wsRun line.data) = true
        · simp [hb, hd, hm, hs] at hp ⊢
          rw [← hp]
        · by_cases hu : nameIsUndef m = true
          · simp [hb, hd, hm, hs, hu] at hp
          · simp [hb, hd, hm, hs, hu] at hp ⊢
            rw [← hp]
    | none =>
      cases hi : itParse line with
      | some m =>
        by_cases hs :
            suppressedUnder st.skippedBlockIndent (wsRun line.data) = true
        · simp [hb, hd, hi, hs] at hp ⊢
          rw [← hp]
        · by_cases hm : m.modifier = some Modifier.mskip
          · simp [hb, hd, hi, hs, hm] at hp ⊢
            rw [← hp]
          · by_cases hu : nameIsUndef m = true
            · simp [hb, hd, hi, hs, hm, hu] at hp
            · simp [hb, hd, hi, hs, hm, hu] at hp ⊢
              rw [← hp]
      | none =>
        by_cases hc : suiteEndTest line = true ∧ 1 < st.stack.length
        · by_cases h2 : (wsRun line.data : Int) ≤ st.currentIndent
          · simp [hb, hd, hi, hc, h2] at hp ⊢
            rw [← hp]
          · simp [hb, hd, hi, hc, h2] at hp ⊢
            rw [← hp]
        · simp [hb, hd, hi, hc] at hp ⊢
          rw [← hp]

/-- A line throws exactly when the model's scanning step returns no
successor state. -/
theorem processLine_none (st : ScanState) (i : Nat) (line : String) :
    processLine st i line = none ↔
      lineThrows st.skippedBlockIndent line = true := by
  unfold processLine lineThrows
  by_cases hb : isBlankOrComment line.data
  · simp [hb]
  · cases hd : describeParse line with
    | some m =>
      by_cases hm : m.modifier = some Modifier.mskip
      · simp [hb, hd, hm]
      · by_cases hs :
          suppressedUnder
            (clearBoundary st.skippedBlockIndent (wsRun line.data))
            (wsRun line.data) = true
        · simp [hb, hd, hm, hs]
        · by_cases hu : nameIsUndef m = true
          · simp [hb, hd, hm, hs, hu]
          · simp [hb, hd, hm, hs, hu]
    | none =>
      cases hi : itParse line with
      | some m =>
        by_cases hs :
            suppressedUnder st.skippedBlockIndent (wsRun line.data) = true
        · simp [hb, hd, hi, hs]
        · by_cases hm : m.modifier = some Modifier.mskip
          · simp [hb, hd, hi, hs, hm]
          · by_cases hu : nameIsUndef m = true
            · simp [hb, hd, hi, hs, hm, hu]
            · simp [hb, hd, hi, hs, hm, hu]
      | none =>
        by_cases hc : suiteEndTest line = true ∧ 1 < st.stack.length
        · by_cases h2 : (wsRun line.data : Int) ≤ st.currentIndent
          · simp [hb, hd, hi, hc, h2]
          · simp [hb, hd, hi, hc, h2]
        · simp [hb, hd, hi, hc]

/-- A throwing line never attaches a Test node: throwing requires an
`undefined` name (or a describe line), which `stepCreatesTest`
excludes. -/
theorem stepCreatesTest_of_lineThrows (b : Option Nat) (line : String)
    (h : lineThrows b line = true) : stepCreatesTest b line = false := by
  unfold lineThrows at h
  unfold stepCreatesTest
  by_cases hb : isBlankOrComment line.data
  · simp [hb]
  · cases hd : describeParse line with
    | some m => simp [hd]
    | none =>
      cases hi : itParse line with
      | some m =>
        simp [hb, hd, hi] at h ⊢
        intro _ _
        exact h.2
      | none => simp [hb, hd, hi] at h

/-- One non-throwing scanning step changes the Test-per-line creation
count exactly at the processed line, and exactly when `stepCreatesTest`
holds. -/
theorem processLine_tcount (st : ScanState) (i : Nat) (line : String)
    (j : Nat) :
    ∀ st2, processLine st i line = some st2 →
      tcount st2.arena j =
        tcount st.arena j +
          (if j = i ∧ stepCreatesTest st.skippedBlockIndent line = true
           then 1 else 0) := by
  intro st2 hp
  unfold processLine at hp
  unfold stepCreatesTest
  by_cases hb : isBlankOrComment line.data
  · simp [hb] at hp ⊢
    rw [← hp]
  · cases hd : describeParse line with
    | some m =>
      by_cases hm : m.modifier = some Modifier.mskip
      · simp [hb, hd, hm] at hp ⊢
        rw [← hp]
      · by_cases hs :
          suppressedUnder
            (clearBoundary st.skippedBlockIndent (wsRun line.data))
            (wsRun line.data) = true
        · simp [hb, hd, hm, hs] at hp ⊢
          rw [← hp]
        · by_cases hu : nameIsUndef m = true
          · simp [hb, hd, hm, hs, hu] at hp
          · simp [hb, hd, hm, hs, hu] at hp
            rw [← hp]
            simp [hb, hd, createUnder, tcount_setKids, tcount_append]
    | none =>
      cases hi : itParse line with
      | some m =>
        by_cases hs :
            suppressedUnder st.skippedBlockIndent (wsRun line.data) = true
        · simp [hb, hd, hi, hs] at hp ⊢
          rw [← hp]
        · by_cases hm : m.modifier = some Modifier.mskip
          · simp [hb, hd, hi, hs, hm] at hp ⊢
            rw [← hp]
          · by_cases hu : nameIsUndef m = true
            · simp [hb, hd, hi, hs, hm, hu] at hp
            · have hij : (i = j) = (j = i) :=
                propext ⟨fun h => h.symm, fun h => h.symm⟩
              simp [hb, hd, hi, hs, hm, hu] at hp
              rw [← hp]
              simp [hb, hd, hi, hs, hm, hu, createUnder, tcount_setKids,
                tcount_append, hij]
      | none =>
        by_cases hc : suiteEndTest line = true ∧ 1 < st.stack.length
        · by_cases h2 : (wsRun line.data : Int) ≤ st.currentIndent
          · simp [hb, hd, hi, hc, h2] at hp ⊢
            rw [← hp]
          · simp [hb, hd, hi, hc, h2] at hp ⊢
            rw [← hp]
        · simp [hb, hd, hi, hc] at hp ⊢
          rw [← hp]

theorem createsInBlock_zero (b : Option Nat) (l : String)
    (rest : List String) :
    createsInBlock b (l :: rest) 0 = stepCreatesTest b l := by
  simp [createsInBlock, noThrowUpTo, skipFold]

theorem createsInBlock_succ (b : Option Nat) (l : String)
    (rest : List String) (k : Nat) :
    createsInBlock b (l :: rest) (k + 1) =
      (!(lineThrows b l) && createsInBlock (skipStep b l) rest k) := by
  unfold createsInBlock
  cases hk : rest[k]? with
  | none => simp [hk]
  | some line =>
    simp [hk, noThrowUpTo, skipFold, List.take_succ_cons, Bool.and_assoc]

/-- The fold lemma: scanning a block of lines starting at index `start`
adds exactly one Test creation for each line the projected machine says
creates one (no earlier line threw, and the line itself qualifies). -/
theorem scanLines_tcount :
    ∀ (ls : List String) (start : Nat) (st : ScanState) (j : Nat),
      tcount (scanLines st start ls).arena j =
        tcount st.arena j +
          (if start ≤ j then
            (if createsInBlock st.skippedBlockIndent ls (j - start) then 1
             else 0)
           else 0) := by
  intro ls
  induction ls with
  | nil =>
    intro start st j
    simp [scanLines, createsInBlock]
  | cons l rest ih =>
    intro start st j
    rw [scanLines]
    cases hp : processLine st start l with
    | none =>
      have ht : lineThrows st.skippedBlockIndent l = true :=
        (processLine_none st start l).mp hp
      have hz : ∀ k,
          createsInBlock st.skippedBlockIndent (l :: rest) k = false := by
        intro k
        cases k with
        | zero =>
          rw [createsInBlock_zero, stepCreatesTest_of_lineThrows _ _ ht]
        | succ k2 =>
          rw [createsInBlock_succ, ht]
          simp
      simp [hz]
    | some st2 =>
      have hnt : lineThrows st.skippedBlockIndent l = false := by
        cases hval : lineThrows st.skippedBlockIndent l with
        | false => rfl
        | true =>
          have hn := (processLine_none st start l).mpr hval
          rw [hn] at hp
          cases hp
      have hsk := processLine_skipped st start l st2 hp
      have htc := processLine_tcount st start l j st2 hp
      rw [ih (start + 1) st2 j, htc, hsk]
      rcases Nat.lt_trichotomy j start with hlt | heq | hgt
      · have h1 : ¬(start ≤ j) := by omega
        have h2 : ¬(start + 1 ≤ j) := by omega
        have h3 : j ≠ start := by omega
        simp [h1, h2, h3]
      · subst heq
        have h2 : ¬(j + 1 ≤ j) := by omega
        have hblock := createsInBlock_zero st.skippedBlockIndent l rest
        simp [h2, hblock]
      · have h1 : start ≤ j := by omega
        have h2 : start + 1 ≤ j := by omega
        have h3 : j ≠ start := by omega
        have hk : j - start = (j - (start + 1)) + 1 := by omega
        have hblock :
            createsInBlock st.skippedBlockIndent (l :: rest)
              ((j - (start + 1)) + 1) =
            createsInBlock (skipStep st.skippedBlockIndent l) rest
              (j - (start + 1)) := by
          rw [createsInBlock_succ, hnt]
          simp
        simp [h1, h2, h3, hk, hblock]

/-- C1 (amended): processing a source text creates and attaches exactly
one Test node for every line holding a non-skip-modified test
declaration with a defined name, outside the active suppression
boundary, with no earlier line aborting the scan; every other line —
skip-modified or suppressed declarations, declarations whose empty
double/single-quoted name is the JS value `undefined` (these throw and
abort the pass), and every line after such an abort — creates zero. -/
theorem test_nodes_created_iff :
    ∀ (fileId fileLabel content : String) (j : Nat),
      tcount (parseFileContent fileId fileLabel content).arena j =
        (if testLineCreates (splitLines content) j then 1 else 0) := by
  intro fileId fileLabel content j
  unfold parseFileContent testLineCreates
  rw [scanLines_tcount (splitLines content) 0 (initState fileId fileLabel) j]
  have h0 : tcount (initState fileId fileLabel).arena j = 0 := by
    simp [tcount, initState, List.countP_cons]
  rw [h0]
  simp [initState]

/-- C1 counterexample: two refutations of the claim as stated.  With two
sibling test declarations of the same label, line 0 qualifies yet the
resulting File tree contains no Test node from line 0 — the later
sibling's id-colliding node replaced it.  And with an empty-named first
declaration, the scan aborts on the TypeError before attaching anything,
so the qualifying second line also produces zero nodes (the arena holds
only the File root). -/
theorem test_line_zero_nodes_cex :
    testLineCreates (splitLines dupContent) 0 = true ∧
    treeTestsAtLine (parseFileContent "f" "f.ts" dupContent) 0 = 0 ∧
    treeTestsAtLine (parseFileContent "f" "f.ts" dupContent) 1 = 1 ∧
    (parseFileContent "f" "f.ts" abortContent).arena.length = 1 ∧
    tcount (parseFileContent "f" "f.ts" abortContent).arena 1 = 0 := by
  refine ⟨by decide, by decide, by decide, by decide, by decide⟩


theorem setKids_length (a : List Node) (p : Nat) (kids : List Nat) :
    (setKids a p kids).length = a.length := by
  unfold setKids
  cases a[p]? <;> simp

theorem arenaGet_out (a : List Node) (j : Nat) (h : a.length ≤ j) :
    arenaGet a j = default := by
  unfold arenaGet
  rw [List.getElem?_eq_none h]
  rfl

theorem arenaGet_append_lt (a : List Node) (n : Node) (j : Nat)
    (h : j < a.length) : arenaGet (a ++ [n]) j = arenaGet a j := by
  unfold arenaGet
  rw [List.getElem?_append]
  simp [h]

theorem arenaGet_append_len (a : List Node) (n : Node) :
    arenaGet (a ++ [n]) a.length = n := by
  unfold arenaGet
  rw [List.getElem?_concat_length]
  rfl

/-- `setKids` only touches the children collection. -/
theorem setKids_nodeCore (a : List Node) (p : Nat) (kids : List Nat)
    (j : Nat) :
    nodeCore (arenaGet (setKids a p kids) j) = nodeCore (arenaGet a j) := by
  unfold setKids
  cases hp : a[p]? with
  | none => rfl
  | some n =>
    by_cases hj : p = j
    · subst hj
      have hlt : p < a.length := (List.getElem?_eq_some.mp hp).1
      unfold arenaGet
      rw [List.getElem?_set_eq_of_lt _ hlt, hp]
      rfl
    · unfold arenaGet
      rw [List.getElem?_set_ne hj]

/-- The creation-time fields of the arena after one `createUnder`. -/
theorem createArena_core (a : List Node) (n : Node) (p : Nat)
    (kids : List Nat) (j : Nat) :
    nodeCore (arenaGet (setKids (a ++ [n]) p kids) j) =
      if j < a.length then nodeCore (arenaGet a j)
      else if j = a.length then nodeCore n
      else nodeCore default := by
  rw [setKids_nodeCore]
  rcases Nat.lt_trichotomy j a.length with hlt | heq | hgt
  · rw [arenaGet_append_lt a n j hlt, if_pos hlt]
  · subst heq
    rw [arenaGet_append_len]
    simp
  · have h1 : ¬ j < a.length := by omega
    have h2 : j ≠ a.length := by omega
    rw [arenaGet_out _ j (by simpa using hgt), if_neg h1, if_neg h2]

/-- The indentation-driven pop loop never empties the stack, keeps its
bottom element, and only discards elements. -/
theorem popLoop_stack :
    ∀ (stack : List Nat) (cur : Int) (indent : Nat), stack ≠ [] →
      (popLoop stack cur indent).1 ≠ [] ∧
      (popLoop stack cur indent).1.getLast? = stack.getLast? ∧
      ∀ j ∈ (popLoop stack cur indent).1, j ∈ stack := by
  intro stack
  induction stack with
  | nil => intro cur indent hne; exact absurd rfl hne
  | cons x rest ih =>
    intro cur indent _
    cases rest with
    | nil => simp [popLoop]
    | cons y rest2 =>
      rw [popLoop]
      by_cases hc : (indent : Int) ≤ cur
      · rw [if_pos hc]
        obtain ⟨h1, h2, h3⟩ := ih (cur - 2) indent (by simp)
        refine ⟨h1, ?_, ?_⟩
        · rw [h2, List.getLast?_cons_cons]
        · intro j hj
          exact List.mem_cons_of_mem x (h3 j hj)
      · rw [if_neg hc]
        exact ⟨by simp, rfl, fun j hj => hj⟩

theorem getLast?_cons_ne (x : Nat) (l : List Nat) (h : l ≠ []) :
    (x :: l).getLast? = l.getLast? := by
  obtain ⟨a, t, rfl⟩ := List.exists_cons_of_ne_nil h
  exact List.getLast?_cons_cons

/-- The invariant holds for the fresh state of a scanning pass. -/
theorem WF_initState (fileId fileLabel : String) :
    WF (initState fileId fileLabel) := by
  refine ⟨by simp [initState], by simp [initState], by simp [initState],
    ?_, rfl, rfl, ?_, ?_⟩
  · intro j hj
    simp [initState] at hj
    simp [initState, hj]
  · intro j hj
    cases j with
    | zero => omega
    | succ k =>
      rw [arenaGet_out _ (k + 1) (by simp [initState])]
      simp [default]
  · intro j hj
    cases j with
    | zero => simp [initState, arenaGet] at hj
    | succ k =>
      rw [arenaGet_out _ (k + 1) (by simp [initState])] at hj
      simp [default] at hj

/-- The invariant is preserved by adding one non-File node under a parent
taken from (a sub-stack of) the open-node stack, optionally pushing the
new index. -/
theorem WF_create (st : ScanState) (stack2 newStack : List Nat)
    (cur2 : Int) (skip2 : Option Nat) (parentIdx : Nat) (n : Node)
    (h : WF st)
    (hs_ne : stack2 ≠ []) (hs_last : stack2.getLast? = st.stack.getLast?)
    (hs_sub : ∀ j ∈ stack2, j ∈ st.stack)
    (hp_mem : parentIdx ∈ stack2)
    (hn_parent : n.parent = parentIdx)
    (hn_tags : n.type = ItemType.test →
        ∀ x ∈ (arenaGet st.arena parentIdx).tags, x ∈ n.tags)
    (hnew : newStack = stack2 ∨ newStack = st.arena.length :: stack2) :
    WF { arena := setKids (st.arena ++ [n]) parentIdx
            (childAdd (st.arena ++ [n])
              (arenaGet (st.arena ++ [n]) parentIdx).children
              st.arena.length)
         stack := newStack
         currentIndent := cur2
         skippedBlockIndent := skip2 } := by
  have hplt : parentIdx < st.arena.length :=
    h.stack_lt parentIdx (hs_sub parentIdx hp_mem)
  have hlen : (setKids (st.arena ++ [n]) parentIdx
      (childAdd (st.arena ++ [n])
        (arenaGet (st.arena ++ [n]) parentIdx).children
        st.arena.length)).length = st.arena.length + 1 := by
    rw [setKids_length]
    simp
  have hcore := createArena_core st.arena n parentIdx
    (childAdd (st.arena ++ [n])
      (arenaGet (st.arena ++ [n]) parentIdx).children
      st.arena.length)
  have htype : ∀ j, (arenaGet (setKids (st.arena ++ [n]) parentIdx
      (childAdd (st.arena ++ [n])
        (arenaGet (st.arena ++ [n]) parentIdx).children
        st.arena.length)) j).type =
      if j < st.arena.length then (arenaGet st.arena j).type
      else if j = st.arena.length then n.type
      else ItemType.file := by
    intro j
    have := congrArg Node.type (hcore j)
    rcases Nat.lt_trichotomy j st.arena.length with hlt | heq | hgt
    · rw [if_pos hlt] at this ⊢
      exact this
    · rw [if_neg (by omega), if_pos heq] at this ⊢
      exact this
    · rw [if_neg (by omega), if_neg (by omega)] at this ⊢
      exact this
  have hparent : ∀ j, (arenaGet (setKids (st.arena ++ [n]) parentIdx
      (childAdd (st.arena ++ [n])
        (arenaGet (st.arena ++ [n]) parentIdx).children
        st.arena.length)) j).parent =
      if j < st.arena.length then (arenaGet st.arena j).parent
      else if j = st.arena.length then n.parent
      else 0 := by
    intro j
    have := congrArg Node.parent (hcore j)
    rcases Nat.lt_trichotomy j st.arena.length with hlt | heq | hgt
    · rw [if_pos hlt] at this ⊢
      exact this
    · rw [if_neg (by omega), if_pos heq] at this ⊢
      exact this
    · rw [if_neg (by omega), if_neg (by omega)] at this ⊢
      exact this
  have htags : ∀ j, (arenaGet (setKids (st.arena ++ [n]) parentIdx
      (childAdd (st.arena ++ [n])
        (arenaGet (st.arena ++ [n]) parentIdx).children
        st.arena.length)) j).tags =
      if j < st.arena.length then (arenaGet st.arena j).tags
      else if j = st.arena.length then n.tags
      else [] := by
    intro j
    have := congrArg Node.tags (hcore j)
    rcases Nat.lt_trichotomy j st.arena.length with hlt | heq | hgt
    · rw [if_pos hlt] at this ⊢
      exact this
    · rw [if_neg (by omega), if_pos heq] at this ⊢
      exact this
    · rw [if_neg (by omega), if_neg (by omega)] at this ⊢
      exact this
  set A := setKids (st.arena ++ [n]) parentIdx
    (childAdd (st.arena ++ [n])
      (arenaGet (st.arena ++ [n]) parentIdx).children
      st.arena.length) with hA
  have f1 : 0 < A.length := by
    rw [hlen]
    omega
  have f2 : newStack ≠ [] := by
    rcases hnew with rfl | rfl
    · exact hs_ne
    · simp
  have f3 : newStack.getLast? = some 0 := by
    rcases hnew with rfl | rfl
    · rw [hs_last, h.stack_last]
    · rw [getLast?_cons_ne _ _ hs_ne, hs_last, h.stack_last]
  have f4 : ∀ j ∈ newStack, j < A.length := by
    intro j hj
    rw [hlen]
    rcases hnew with rfl | rfl
    · have := h.stack_lt j (hs_sub j hj)
      omega
    · rcases List.mem_cons.mp hj with rfl | hj2
      · omega
      · have := h.stack_lt j (hs_sub j hj2)
        omega
  have f5 : (arenaGet A 0).type = ItemType.file := by
    rw [htype 0, if_pos h.arena_pos]
    exact h.root_type
  have f6 : (arenaGet A 0).parent = 0 := by
    rw [hparent 0, if_pos h.arena_pos]
    exact h.parent0
  have f7 : ∀ j, 0 < j → (arenaGet A j).parent < j := by
    intro j hj
    rw [hparent j]
    rcases Nat.lt_trichotomy j st.arena.length with hlt | heq | hgt
    · rw [if_pos hlt]
      exact h.parent_lt j hj
    · rw [if_neg (by omega), if_pos heq]
      rw [hn_parent]
      omega
    · rw [if_neg (by omega), if_neg (by omega)]
      omega
  have f8 : ∀ j, (arenaGet A j).type = ItemType.test →
      ∀ x ∈ (arenaGet A (arenaGet A j).parent).tags,
        x ∈ (arenaGet A j).tags := by
    intro j hjt x hx
    rw [htype j] at hjt
    rcases Nat.lt_trichotomy j st.arena.length with hlt | heq | hgt
    · rw [if_pos hlt] at hjt
      rw [hparent j, if_pos hlt] at hx
      rw [htags j, if_pos hlt]
      have hj0 : 0 < j := by
        by_contra h0
        have hz : j = 0 := by omega
        rw [hz] at hjt
        rw [h.root_type] at hjt
        exact absurd hjt (by decide)
      have hpar_lt : (arenaGet st.arena j).parent < st.arena.length := by
        have := h.parent_lt j hj0
        omega
      rw [htags _, if_pos hpar_lt] at hx
      exact h.test_tags j hjt x hx
    · rw [if_neg (by omega), if_pos heq] at hjt
      rw [hparent j, if_neg (by omega), if_pos heq, hn_parent] at hx
      rw [htags j, if_neg (by omega), if_pos heq]
      rw [htags parentIdx, if_pos hplt] at hx
      exact hn_tags hjt x hx
    · rw [if_neg (by omega), if_neg (by omega)] at hjt
      exact absurd hjt (by decide)
  exact ⟨f1, f2, f3, f4, f5, f6, f7, f8⟩

/-- Every scanning step preserves the invariant. -/
theorem WF_processLine (st : ScanState) (i : Nat) (line : String)
    (h : WF st) : ∀ st2, processLine st i line = some st2 → WF st2 := by
  intro st2 hp
  unfold processLine at hp
  by_cases hb : isBlankOrComment line.data
  · simp [hb] at hp
    rw [← hp]
    exact h
  · cases hd : describeParse line with
    | some m =>
      by_cases hm : m.modifier = some Modifier.mskip
      · simp [hb, hd, hm] at hp
        rw [← hp]
        exact ⟨h.arena_pos, h.stack_ne, h.stack_last, h.stack_lt,
          h.root_type, h.parent0, h.parent_lt, h.test_tags⟩
      · by_cases hs :
          suppressedUnder
            (clearBoundary st.skippedBlockIndent (wsRun line.data))
            (wsRun line.data) = true
        · simp [hb, hd, hm, hs] at hp
          rw [← hp]
          exact ⟨h.arena_pos, h.stack_ne, h.stack_last, h.stack_lt,
            h.root_type, h.parent0, h.parent_lt, h.test_tags⟩
        · by_cases hu : nameIsUndef m = true
          · simp [hb, hd, hm, hs, hu] at hp
          · simp [hb, hd, hm, hs, hu, createUnder] at hp
            rw [← hp]
            obtain ⟨hp1, hp2, hp3⟩ :=
              popLoop_stack st.stack st.currentIndent (wsRun line.data)
                h.stack_ne
            have hmem :
                (popLoop st.stack st.currentIndent
                    (wsRun line.data)).1.head?.getD 0 ∈
                  (popLoop st.stack st.currentIndent (wsRun line.data)).1
                := by
              obtain ⟨hd0, tl0, hP⟩ := List.exists_cons_of_ne_nil hp1
              rw [hP]
              simp
            refine WF_create st _ _ _ _ _ _ h hp1 hp2 hp3 hmem rfl ?_
              (Or.inr rfl)
            intro ht
            simp at ht
    | none =>
      cases hi : itParse line with
      | some m =>
        by_cases hs :
            suppressedUnder st.skippedBlockIndent (wsRun line.data) = true
        · simp [hb, hd, hi, hs] at hp
          rw [← hp]
          exact h
        · by_cases hm : m.modifier = some Modifier.mskip
          · simp [hb, hd, hi, hs, hm] at hp
            rw [← hp]
            exact h
          · by_cases hu : nameIsUndef m = true
            · simp [hb, hd, hi, hs, hm, hu] at hp
            · simp [hb, hd, hi, hs, hm, hu, createUnder] at hp
              rw [← hp]
              have hmem : st.stack.head?.getD 0 ∈ st.stack := by
                obtain ⟨hd0, tl0, hP⟩ :=
                  List.exists_cons_of_ne_nil h.stack_ne
                rw [hP]
                simp
              exact WF_create st st.stack st.stack _ _ _ _ h h.stack_ne
                rfl (fun j hj => hj) hmem rfl
                (fun _ x hx => List.mem_append_left _ hx) (Or.inl rfl)
      | none =>
        by_cases hc : suiteEndTest line = true ∧ 1 < st.stack.length
        · by_cases h2 : (wsRun line.data : Int) ≤ st.currentIndent
          · simp [hb, hd, hi, hc, h2] at hp
            rw [← hp]
            have hlen2 : 1 < st.stack.length := hc.2
            obtain ⟨x, rest, hx⟩ := List.exists_cons_of_ne_nil h.stack_ne
            have hrest : rest ≠ [] := by
              rw [hx] at hlen2
              simp at hlen2
              exact List.ne_nil_of_length_pos hlen2
            refine ⟨h.arena_pos, ?_, ?_, ?_, h.root_type, h.parent0,
              h.parent_lt, h.test_tags⟩
            · show st.stack.tail ≠ []
              rw [hx]
              exact hrest
            · show st.stack.tail.getLast? = some 0
              rw [hx]
              show rest.getLast? = some 0
              rw [← getLast?_cons_ne x rest hrest, ← hx]
              exact h.stack_last
            · intro j hj
              refine h.stack_lt j ?_
              rw [hx] at hj ⊢
              exact List.mem_cons_of_mem x hj
          · simp [hb, hd, hi, hc, h2] at hp
            rw [← hp]
            exact h
        · simp [hb, hd, hi, hc] at hp
          rw [← hp]
          exact h

/-- The invariant holds after scanning any block of lines (a throwing
line simply truncates the pass at the last invariant-respecting
state). -/
theorem WF_scanLines :
    ∀ (ls : List String) (start : Nat) (st : ScanState), WF st →
      WF (scanLines st start ls) := by
  intro ls
  induction ls with
  | nil => intro start st h; exact h
  | cons l rest ih =>
    intro start st h
    rw [scanLines]
    cases hp : processLine st start l with
    | none => exact h
    | some st2 =>
      exact ih (start + 1) st2 (WF_processLine st start l h st2 hp)

/-- With well-founded parent links, every index reaches the root. -/
theorem reaches_of_parent_lt (a : List Node)
    (hlt : ∀ j, 0 < j → (arenaGet a j).parent < j) :
    ∀ fuel j, j < fuel → reaches a fuel j = true := by
  intro fuel
  induction fuel with
  | zero => intro j hj; omega
  | succ f ih =>
    intro j hj
    rw [reaches]
    by_cases hz : j = 0
    · simp [hz]
    · have h1 : 0 < j := by omega
      have h2 : (arenaGet a j).parent < f := by
        have := hlt j h1
        omega
      simp [ih _ h2]

/-- C10: throughout any scanning pass — after any number `k` of processed
lines — the open-node stack is non-empty with the File node (index 0,
which keeps its File type) at the bottom: every pop is guarded by the
stack holding more than one element, so the File node is never popped;
consequently every node in the arena reaches the File root through its
parent chain. -/
theorem file_root_always_bottom :
    ∀ (fileId fileLabel content : String) (k j : Nat),
      (scanLines (initState fileId fileLabel) 0
          ((splitLines content).take k)).stack ≠ [] ∧
      (scanLines (initState fileId fileLabel) 0
          ((splitLines content).take k)).stack.getLast? = some 0 ∧
      (arenaGet (scanLines (initState fileId fileLabel) 0
          ((splitLines content).take k)).arena 0).type = ItemType.file ∧
      (j < (scanLines (initState fileId fileLabel) 0
          ((splitLines content).take k)).arena.length →
        reaches
          (scanLines (initState fileId fileLabel) 0
            ((splitLines content).take k)).arena
          (scanLines (initState fileId fileLabel) 0
            ((splitLines content).take k)).arena.length j = true) := by
  intro fileId fileLabel content k j
  have h := WF_scanLines ((splitLines content).take k) 0
    (initState fileId fileLabel) (WF_initState fileId fileLabel)
  exact ⟨h.stack_ne, h.stack_last, h.root_type,
    fun hj => reaches_of_parent_lt _ h.parent_lt _ j hj⟩

/-- C10 witness: the invariant at a concrete mid-scan state of the spec's
running example. -/
theorem file_root_always_bottom_witness :
    (scanLines (initState "f" "f.ts") 0
        ((splitLines specContent).take 6)).stack.getLast? = some 0 ∧
    reaches
      (scanLines (initState "f" "f.ts") 0
        ((splitLines specContent).take 6)).arena
      (scanLines (initState "f" "f.ts") 0
        ((splitLines specContent).take 6)).arena.length 2 = true :=
  ⟨(file_root_always_bottom "f" "f.ts" specContent 6 2).2.1,
    (file_root_always_bottom "f" "f.ts" specContent 6 2).2.2.2 (by decide)⟩

/-- C5 counterexample: a nested Suite node does not inherit its parent's
tags — the inner suite of `c5Content` has an empty tag set although its
parent carries the tag `a`, so its tag set is not a superset of the
parent's. -/
theorem suite_tags_not_inherited_cex :
    (arenaGet (parseFileContent "f" "f.ts" c5Content).arena 2).type =
        ItemType.suite ∧
    (arenaGet (parseFileContent "f" "f.ts" c5Content).arena 2).parent = 1 ∧
    "a" ∈ (arenaGet (parseFileContent "f" "f.ts" c5Content).arena 1).tags ∧
    ¬ "a" ∈ (arenaGet (parseFileContent "f" "f.ts" c5Content).arena 2).tags
    := ⟨by decide, by decide, by decide, by decide⟩

/-- C5 amended: only Test nodes union the parent's tag set into their own
at creation (Suite nodes carry just the tags extracted from their own
label) — for every Test node of a scanned tree, its tag list contains
every tag of its parent node. -/
theorem test_tags_contain_parent_tags :
    ∀ (fileId fileLabel content : String) (j : Nat),
      (arenaGet (parseFileContent fileId fileLabel content).arena j).type =
        ItemType.test →
      ∀ x ∈ (arenaGet (parseFileContent fileId fileLabel content).arena
          (arenaGet (parseFileContent fileId fileLabel content).arena
            j).parent).tags,
        x ∈ (arenaGet (parseFileContent fileId fileLabel content).arena
          j).tags := by
  intro fileId fileLabel content j
  have h := WF_scanLines (splitLines content) 0 (initState fileId fileLabel)
    (WF_initState fileId fileLabel)
  exact h.test_tags j

/-- C5 amended witness: the test of `c5bContent` inherits the `a` tag of
its parent suite. -/
theorem test_tags_contain_parent_tags_witness :
    (arenaGet (parseFileContent "f" "f.ts" c5bContent).arena 2).type =
        ItemType.test ∧
    "a" ∈ (arenaGet (parseFileContent "f" "f.ts" c5bContent).arena 2).tags :=
  ⟨by decide,
    test_tags_contain_parent_tags "f" "f.ts" c5bContent 2 (by decide) "a"
      (by decide)⟩

end MochaAdapter
